import Mathlib

/-!
Shallow embedding of the GUID decoder (`src/main.go`) and verification of its
specification claims.

Modelling conventions:
* A Go `[]byte` buffer (`UUIDByte`) is a `List Nat`; the byte invariant
  `b < 256` appears as an explicit hypothesis where it matters.  Indexing
  `u[i]` on a validated buffer is modelled with `List.getD u i 0`.
* Go strings are `List Char` (the inputs of interest are ASCII, where Go's
  byte-wise operations and `Char`-wise operations coincide).
* Machine integers are modelled as `Nat`/`Int`.  The Go code keeps every
  intermediate in range (this is proved where the claims require it), so no
  wrap-around modelling is needed: `uint32 timeLow < 2^32`,
  `uint16 timeMid/timeHigh < 2^16`, and the 60-bit tick count fits `int64`.
* `time.Time` arithmetic is exact integer nanosecond arithmetic in the range
  used here; a `time.Time` is modelled as an `Int` count of nanoseconds
  (with the fixed representation "nanoseconds since the Unix epoch", in
  which the UUID epoch 1582-10-15T00:00:00Z is `-12219292800 * 10^9`).
* Fallible operations return explicit outcome values; the Go runtime panic
  from indexing `s[0]` on an empty string is modelled by the distinguished
  outcome `ParseOutcome.outOfRange`.
-/

/-- Epoch `UUIDTimeBase = time.Date(1582, 10, 15, 0, 0, 0, 0, time.UTC)`,
as nanoseconds since the Unix epoch (1582-10-15T00:00:00Z is
-12219292800 s). -/
def UUIDTimeBaseNs : Int := -12219292800 * 1000000000

/-- `UUITTimeUnit = 100 * time.Nanosecond`: the tick unit in nanoseconds. -/
def UUITTimeUnit : Nat := 100

/-- `MaxDurationUnit = (1<<63 - 1) / 100`: maximum `time.Duration` in
100-ns units. -/
def MaxDurationUnit : Nat := (2 ^ 63 - 1) / 100

/-- The UUID variant enumeration (`UUIDVariant` in the source; the
`NullVariant` value exists in the Go enum but is never produced by
`Variant`). -/
inductive UUIDVariant where
  | nullVariant
  | ncs
  | rfc4122
  | microsoft
  | future
deriving DecidableEq, Repr

/-- Read `u[i]` on a validated buffer (`List.getD` with default 0; the
source indexes only positions below 16 of a 16-byte buffer). -/
def byteAt (u : List Nat) (i : Nat) : Nat :=
  u.getD i 0

/-- `Version`: the high nibble of byte 6 (`u[versionIdx] >> 4`). -/
def Version (u : List Nat) : Nat :=
  byteAt u 6 >>> 4

/-- `Variant`: classify the high nibble of byte 8
(`v := u[variantIdx] >> 4`; `v <= 7` NCS, `8 <= v <= 0xb` RFC4122,
`0xc <= v <= 0xd` Microsoft, otherwise Future). -/
def Variant (u : List Nat) : UUIDVariant :=
  let v := byteAt u 8 >>> 4
  if v ≤ 7 then .ncs
  else if 8 ≤ v ∧ v ≤ 0x0b then .rfc4122
  else if 0x0c ≤ v ∧ v ≤ 0x0d then .microsoft
  else .future

/-- Body of `MaskVariant` on the value of byte 8: clear the
variant-indicator bits (`b & 0x80 == 0` → `b &= 0x7f`;
`b & 0xc0 == 0x80` → `b &= 0x3f`; otherwise `b &= 0x1f`). -/
def maskVariantByte (b : Nat) : Nat :=
  if b &&& 0x80 = 0 then b &&& 0x7f
  else if b &&& 0xc0 = 0x80 then b &&& 0x3f
  else b &&& 0x1f

/-- `MaskVariant`: byte 8 with its variant-indicator bits cleared. -/
def MaskVariant (u : List Nat) : Nat :=
  maskVariantByte (byteAt u 8)

/-- `DataInfo` (versions 3, 4, 5): a copy of the buffer with the high
nibble of byte 6 cleared (`b[versionIdx] &= 0x0f`) and byte 8 replaced by
`u.MaskVariant()`.  The Go code allocates a fresh slice and copies before
mutating, so the receiver is untouched; in this pure embedding that copy
is the value produced by `List.set`. -/
def DataInfo (u : List Nat) : List Nat :=
  (u.set 6 (byteAt u 6 &&& 0x0f)).set 8 (MaskVariant u)

/-- The time-low loop of `TimeInfo`: `for m := uint32(1); i < 4; i++`
with `timeLow += v*m; m <<= 8` in the little-endian branch and
`timeLow = (timeLow << 8) + v` otherwise.  The loop body is folded over
the four index values `0, 1, 2, 3`. -/
def timeLow (u : List Nat) (le : Bool) : Nat :=
  (([0, 1, 2, 3] : List Nat).foldl
    (fun p i =>
      let v := byteAt u i
      if le then (p.1 + v * p.2, p.2 <<< 8) else ((p.1 <<< 8) + v, p.2))
    (0, 1)).1

/-- The time-mid field of `TimeInfo`: bytes 4 and 5
(`u[4] + u[5] << 8` little-endian, `(u[4] << 8) + u[5]` otherwise). -/
def timeMid (u : List Nat) (le : Bool) : Nat :=
  if le then byteAt u 4 + (byteAt u 5 <<< 8)
  else (byteAt u 4 <<< 8) + byteAt u 5

/-- The time-high field of `TimeInfo`: bytes 6 (version nibble masked)
and 7 (`(u[6] & 0x0f) + u[7] << 4` little-endian,
`((u[6] & 0x0f) << 8) + u[7]` otherwise).  Note that the little-endian
branch of the source shifts byte 7 by 4 bits, not 8. -/
def timeHigh (u : List Nat) (le : Bool) : Nat :=
  if le then (byteAt u 6 &&& 0x0f) + (byteAt u 7 <<< 4)
  else ((byteAt u 6 &&& 0x0f) <<< 8) + byteAt u 7

/-- The `timeUnits` value of `TimeInfo`: the 60-bit tick count
(`switch version`: case 1 uses all three fields, case 2 drops time-low,
any other version leaves it 0). -/
def timeUnits (u : List Nat) (le : Bool) : Nat :=
  if Version u = 1 then
    timeLow u le + (timeMid u le <<< 32) + (timeHigh u le <<< 48)
  else if Version u = 2 then
    (timeMid u le <<< 32) + (timeHigh u le <<< 48)
  else 0

/-- The chunked-addition loop of `TimeInfo`: starting from a calendar
time `acc` (in ns), repeatedly add `MaxDurationUnit*UUITTimeUnit` while
more than `MaxDurationUnit` ticks remain, then add the remainder.  The
tick count is a `Nat` because the source computes it from non-negative
fields. -/
def chunkAdd (t : Nat) (acc : Int) : Int :=
  if t = 0 then acc
  else if MaxDurationUnit < t then
    chunkAdd (t - MaxDurationUnit) (acc + (MaxDurationUnit : Int) * (UUITTimeUnit : Int))
  else acc + (t : Int) * (UUITTimeUnit : Int)
termination_by t
decreasing_by
  have hM : 0 < MaxDurationUnit := by decide
  omega

/-- Result record of `TimeInfo` (`theTime time.Time, clkSeq, domain,
localID int`); `timeNs` is the calendar time in nanoseconds. -/
structure TimeInfoResult where
  timeNs : Int
  clkSeq : Int
  domain : Int
  localID : Int
deriving DecidableEq, Repr

/-- `TimeInfo` (versions 1 and 2): decode the three time fields, compose
the 60-bit tick count, convert it to a calendar time by chunked addition
from `UUIDTimeBase`, and decode clock-sequence / domain / local-ID
according to the version switch. -/
def TimeInfo (u : List Nat) (le : Bool) : TimeInfoResult :=
  let version := Version u
  let theTime := chunkAdd (timeUnits u le) UUIDTimeBaseNs
  let mask := MaskVariant u
  let clkSeq : Int :=
    if version = 1 then (mask : Int) * 2 ^ 8 + (byteAt u 9 : Int) else (mask : Int)
  let domain : Int := if version = 2 then (byteAt u 9 : Int) else 0
  let localID : Int := if version = 2 then (timeLow u le : Int) else 0
  ⟨theTime, clkSeq, domain, localID⟩

/-- Go's `encoding/hex` digit table `0123456789abcdef`, indexed by a
nibble value. -/
def hexLower (n : Nat) : Char :=
  if n < 10 then Char.ofNat (48 + n) else Char.ofNat (87 + n)

/-- `hex.EncodeToString` of one byte: two lowercase hex digits, high
nibble first. -/
def encByte (b : Nat) : List Char :=
  [hexLower (b >>> 4), hexLower (b &&& 0x0f)]

/-- `hex.EncodeToString` of a byte slice. -/
def hexEncodeList (bs : List Nat) : List Char :=
  bs.flatMap encByte

/-- `UUIDByte.String()`: hex-encode the five slices `u[0:4]`, `u[4:6]`,
`u[6:8]`, `u[8:10]`, `u[10:16]`, join them with dashes, and uppercase the
result (`strings.ToUpper`). -/
def uuidString (u : List Nat) : List Char :=
  (hexEncodeList (u.take 4)
    ++ '-' :: hexEncodeList ((u.drop 4).take 2)
    ++ '-' :: hexEncodeList ((u.drop 6).take 2)
    ++ '-' :: hexEncodeList ((u.drop 8).take 2)
    ++ '-' :: hexEncodeList ((u.drop 10).take 6)).map Char.toUpper

/-- Go's `encoding/hex.fromHexChar`: value of one hex digit, accepting
both cases. -/
def fromHexChar (c : Char) : Option Nat :=
  let n := c.toNat
  if 48 ≤ n ∧ n ≤ 57 then some (n - 48)
  else if 97 ≤ n ∧ n ≤ 102 then some (n - 97 + 10)
  else if 65 ≤ n ∧ n ≤ 70 then some (n - 65 + 10)
  else none

/-- The two error values `hex.Decode` can report: an invalid byte, or
`hex.ErrLength` for a trailing odd digit. -/
inductive HexError where
  | invalidByte (c : Char)
  | errLength
deriving DecidableEq, Repr

/-- Go's `encoding/hex.Decode`: decode digit pairs front to back,
stopping at the first invalid digit; a trailing lone digit is checked
for validity before `ErrLength` is reported.  Returns the bytes decoded
so far together with the error, if any (the Go function returns the count
`n`, which is the length of that list, and writes the bytes into the
prefix of `dst`). -/
def hexDecodeGo : List Char → List Nat × Option HexError
  | [] => ([], none)
  | [c] =>
      ([], some (if (fromHexChar c).isSome then HexError.errLength else HexError.invalidByte c))
  | c1 :: c2 :: rest =>
    match fromHexChar c1 with
    | none => ([], some (HexError.invalidByte c1))
    | some a =>
      match fromHexChar c2 with
      | none => ([], some (HexError.invalidByte c2))
      | some b =>
        let p := hexDecodeGo rest
        (((a <<< 4) ||| b) :: p.1, p.2)

/-- `strings.TrimSuffix(s, "\x7d")`: drop one trailing right brace when
present. -/
def trimBraceSuffix (l : List Char) : List Char :=
  if l.getLast? = some (Char.ofNat 125) then l.dropLast else l

/-- `strings.HasPrefix` on character lists (used by `TrimPrefix`). -/
def hasPrefixList : List Char → List Char → Bool
  | [], _ => true
  | _ :: _, [] => false
  | p :: ps, c :: cs => p == c && hasPrefixList ps cs

/-- The characters of the prefix `urn:uuid:`. -/
def urnHeader : List Char :=
  ['u', 'r', 'n', ':', 'u', 'u', 'i', 'd', ':']

/-- The canonicalization phase of `FromString`: strip all dashes; if the
first remaining character is a left brace (`\x7b`), strip it and one
trailing right brace when present, otherwise strip a leading `urn:uuid:`.
`none` models the fact that the source indexes `s[0]` on the stripped
string, which is a runtime index-out-of-range fault when it is empty. -/
def canonicalize (src : List Char) : Option (List Char) :=
  let s := src.filter (fun c => c != '-')
  match s with
  | [] => none
  | c :: rest =>
    some (if c = Char.ofNat 123 then trimBraceSuffix rest
          else if hasPrefixList urnHeader s then s.drop 9 else s)

/-- Outcome of `FromString`: runtime index fault, hex decode error,
wrong decoded length, or success. -/
inductive ParseOutcome where
  | outOfRange
  | decodeErr (e : HexError)
  | lengthErr (n : Nat)
  | ok
deriving DecidableEq, Repr

/-- The decode phase of `FromString`: allocate
`make(UUIDByte, hex.DecodedLen(len(s)))` (zeros), run `hex.Decode` into
it, and report a decode error, a length error when `n != 16`, or
success.  Returns the final receiver value together with the outcome. -/
def decodePart (s2 : List Char) : List Nat × ParseOutcome :=
  let lenDst := s2.length / 2
  let p := hexDecodeGo s2
  let newU := p.1 ++ List.replicate (lenDst - p.1.length) 0
  match p.2 with
  | some e => (newU, ParseOutcome.decodeErr e)
  | none =>
    if p.1.length = 16 then (newU, ParseOutcome.ok)
    else (newU, ParseOutcome.lengthErr p.1.length)

/-- `FromString`: canonicalize then decode.  The pair is the receiver
`*u` after the call together with the outcome; on the runtime index fault
the receiver keeps its previous value `old`. -/
def FromString (old : List Nat) (src : List Char) : List Nat × ParseOutcome :=
  match canonicalize src with
  | none => (old, ParseOutcome.outOfRange)
  | some s2 => decodePart s2

/-! ### Basic helper lemmas -/

/-- Every buffer position read with default 0 is a byte value when the
buffer holds bytes. -/
theorem byteAt_lt_256 {u : List Nat} (hb : ∀ b ∈ u, b < 256) (i : Nat) :
    byteAt u i < 256 := by
  rw [byteAt, List.getD_eq_getElem?_getD]
  cases h : u[i]? with
  | none => simp
  | some b => simpa using hb b (List.getElem?_mem h)

/-- Masking a byte with `0x0f` keeps its low nibble. -/
theorem and_fifteen (x : Nat) : x &&& 15 = x % 16 := by
  have h := Nat.and_pow_two_sub_one_eq_mod x 4
  norm_num at h
  exact h

/-- The chunked-addition loop is exact: starting from `acc` and adding
`t` ticks chunk by chunk lands exactly on `acc + t * UUITTimeUnit`
nanoseconds — no rounding, no drift. -/
theorem chunkAdd_eq (t : Nat) (acc : Int) :
    chunkAdd t acc = acc + (t : Int) * (UUITTimeUnit : Int) := by
  induction t using Nat.strong_induction_on generalizing acc with
  | _ t ih =>
    unfold chunkAdd
    split
    · rename_i h; subst h; simp
    · split
      · rename_i h hlt
        have hM : 0 < MaxDurationUnit := by decide
        rw [ih (t - MaxDurationUnit) (by omega)]
        have hcast : ((t - MaxDurationUnit : Nat) : Int)
            = (t : Int) - (MaxDurationUnit : Int) := by
          omega
        rw [hcast]; ring
      · rfl

/-- Closed form of the little-endian time-low loop: byte 0 is least
significant, place values increase by factors of `2^8`. -/
theorem timeLow_le_eq (u : List Nat) :
    timeLow u true =
      byteAt u 0 + byteAt u 1 * 2 ^ 8 + byteAt u 2 * 2 ^ 16 + byteAt u 3 * 2 ^ 24 := by
  simp only [timeLow, List.foldl_cons, List.foldl_nil, Nat.shiftLeft_eq]
  norm_num

/-- Closed form of the big-endian time-low loop: byte 0 is most
significant. -/
theorem timeLow_be_eq (u : List Nat) :
    timeLow u false =
      byteAt u 0 * 2 ^ 24 + byteAt u 1 * 2 ^ 16 + byteAt u 2 * 2 ^ 8 + byteAt u 3 := by
  simp only [timeLow, List.foldl_cons, List.foldl_nil, Nat.shiftLeft_eq]
  norm_num
  ring

/-- The decoded time-low field is a 32-bit value (so the `uint32` in the
source never wraps). -/
theorem timeLow_lt (u : List Nat) (hb : ∀ b ∈ u, b < 256) (le : Bool) :
    timeLow u le < 2 ^ 32 := by
  have h0 := byteAt_lt_256 hb 0
  have h1 := byteAt_lt_256 hb 1
  have h2 := byteAt_lt_256 hb 2
  have h3 := byteAt_lt_256 hb 3
  cases le
  · rw [timeLow_be_eq]; omega
  · rw [timeLow_le_eq]; omega

/-- The decoded time-mid field is a 16-bit value. -/
theorem timeMid_lt (u : List Nat) (hb : ∀ b ∈ u, b < 256) (le : Bool) :
    timeMid u le < 2 ^ 16 := by
  have h4 := byteAt_lt_256 hb 4
  have h5 := byteAt_lt_256 hb 5
  cases le <;> simp only [timeMid, Nat.shiftLeft_eq, if_true, if_false, Bool.false_eq_true,
    ite_true, ite_false] <;> omega

/-- The decoded time-high field is a 12-bit value (the version nibble is
masked out in both endianness branches). -/
theorem timeHigh_lt (u : List Nat) (hb : ∀ b ∈ u, b < 256) (le : Bool) :
    timeHigh u le < 2 ^ 12 := by
  have h6 := byteAt_lt_256 hb 6
  have h7 := byteAt_lt_256 hb 7
  have hm : byteAt u 6 &&& 15 = byteAt u 6 % 16 := and_fifteen _
  cases le <;> simp only [timeHigh, Nat.shiftLeft_eq, hm, ite_true, ite_false,
    Bool.false_eq_true] <;> omega

/-- The 60-bit tick count really is below `2^60` (and in particular fits
the source's `int64`). -/
theorem timeUnits_lt (u : List Nat) (hb : ∀ b ∈ u, b < 256) (le : Bool) :
    timeUnits u le < 2 ^ 60 := by
  have hL := timeLow_lt u hb le
  have hM := timeMid_lt u hb le
  have hH := timeHigh_lt u hb le
  unfold timeUnits
  split
  · rw [Nat.shiftLeft_eq, Nat.shiftLeft_eq]; norm_num at *; omega
  · split
    · rw [Nat.shiftLeft_eq, Nat.shiftLeft_eq]; norm_num at *; omega
    · positivity

/-! ### Claim C3: variant classification -/

/-- C3: for every buffer, `Variant` classifies byte 8 exhaustively by its
value — 0x00–0x7F yields NCS, 0x80–0xBF yields RFC4122, 0xC0–0xDF yields
Microsoft, 0xE0–0xFF yields Future — and the classification is
independent of the version nibble (byte 6). -/
theorem C3_variant_exhaustive (u : List Nat) :
    (Variant u =
      if byteAt u 8 ≤ 0x7f then UUIDVariant.ncs
      else if byteAt u 8 ≤ 0xbf then UUIDVariant.rfc4122
      else if byteAt u 8 ≤ 0xdf then UUIDVariant.microsoft
      else UUIDVariant.future)
    ∧ ∀ w : Nat, Variant (u.set 6 w) = Variant u := by
  constructor
  · simp only [Variant, Nat.shiftRight_eq_div_pow]
    split_ifs <;> first | rfl | (exfalso; omega)
  · intro w
    have h : byteAt (u.set 6 w) 8 = byteAt u 8 := by
      simp only [byteAt, List.getD_eq_getElem?_getD]
      rw [List.getElem?_set_ne (by omega)]
    simp only [Variant, h]

/-! ### Claim C4: variant-bit masking -/

set_option maxRecDepth 40000 in
/-- C4: `MaskVariant` returns byte 8 with exactly 1 high bit cleared when
the top bit is 0, exactly 2 high bits cleared when the top two bits are
`10`, and exactly 3 high bits cleared otherwise, leaving all remaining
bits of the byte unchanged (stated as: the result is the byte modulo
`2^7` / `2^6` / `2^5`, its low bits test equal to the original byte's
bits, and the cleared positions test false). -/
theorem C4_maskvariant_bits (u : List Nat) (hb : ∀ b ∈ u, b < 256) :
    ((byteAt u 8).testBit 7 = false →
       MaskVariant u = byteAt u 8 % 2 ^ 7
       ∧ (∀ i < 7, (MaskVariant u).testBit i = (byteAt u 8).testBit i)
       ∧ (MaskVariant u).testBit 7 = false)
    ∧ ((byteAt u 8).testBit 7 = true → (byteAt u 8).testBit 6 = false →
       MaskVariant u = byteAt u 8 % 2 ^ 6
       ∧ (∀ i < 6, (MaskVariant u).testBit i = (byteAt u 8).testBit i)
       ∧ (MaskVariant u).testBit 6 = false ∧ (MaskVariant u).testBit 7 = false)
    ∧ ((byteAt u 8).testBit 7 = true → (byteAt u 8).testBit 6 = true →
       MaskVariant u = byteAt u 8 % 2 ^ 5
       ∧ (∀ i < 5, (MaskVariant u).testBit i = (byteAt u 8).testBit i)
       ∧ (MaskVariant u).testBit 5 = false ∧ (MaskVariant u).testBit 6 = false
         ∧ (MaskVariant u).testBit 7 = false) := by
  have H1 : ∀ b, b < 256 → Nat.testBit b 7 = false →
      maskVariantByte b = b % 2 ^ 7
      ∧ (∀ i < 7, (maskVariantByte b).testBit i = Nat.testBit b i)
      ∧ (maskVariantByte b).testBit 7 = false := by decide
  have H2 : ∀ b, b < 256 → Nat.testBit b 7 = true → Nat.testBit b 6 = false →
      maskVariantByte b = b % 2 ^ 6
      ∧ (∀ i < 6, (maskVariantByte b).testBit i = Nat.testBit b i)
      ∧ (maskVariantByte b).testBit 6 = false ∧ (maskVariantByte b).testBit 7 = false := by
    decide
  have H3 : ∀ b, b < 256 → Nat.testBit b 7 = true → Nat.testBit b 6 = true →
      maskVariantByte b = b % 2 ^ 5
      ∧ (∀ i < 5, (maskVariantByte b).testBit i = Nat.testBit b i)
      ∧ (maskVariantByte b).testBit 5 = false ∧ (maskVariantByte b).testBit 6 = false
        ∧ (maskVariantByte b).testBit 7 = false := by decide
  have hb8 := byteAt_lt_256 hb 8
  exact ⟨H1 (byteAt u 8) hb8, H2 (byteAt u 8) hb8, H3 (byteAt u 8) hb8⟩

/-- Witness for C4 at a concrete buffer: byte 8 is 0xAA (RFC4122-shaped),
so exactly the top two bits are cleared and the masked value is
0xAA % 2^6 = 0x2A. -/
theorem C4_maskvariant_bits_witness :
    MaskVariant [0x8b, 0xe4, 0xdf, 0x61, 0x93, 0xca, 0x11, 0xd2,
      0xaa, 0x0d, 0x00, 0xe0, 0x98, 0x03, 0x2b, 0x8c]
      = 0xaa % 2 ^ 6 :=
  ((C4_maskvariant_bits [0x8b, 0xe4, 0xdf, 0x61, 0x93, 0xca, 0x11, 0xd2,
      0xaa, 0x0d, 0x00, 0xe0, 0x98, 0x03, 0x2b, 0x8c]
      (by decide)).2.1 (by decide) (by decide)).1

/-! ### Claim C9: payload extraction is a content-preserving copy -/

/-- C9: `DataInfo` returns a 16-byte sequence equal to the buffer except
that byte 6 has its high nibble cleared and byte 8 is replaced by
`MaskVariant`.  The Go code builds this value in a freshly allocated
slice (`make` + `copy`) and never writes through the receiver, so the
original buffer is unchanged; in this pure embedding that is reflected by
`DataInfo` being a function of `u` producing a new list value. -/
theorem C9_datainfo_copy (u : List Nat) (h16 : u.length = 16) :
    (DataInfo u).length = 16
    ∧ (∀ i, i ≠ 6 → i ≠ 8 → byteAt (DataInfo u) i = byteAt u i)
    ∧ byteAt (DataInfo u) 6 = byteAt u 6 &&& 0x0f
    ∧ byteAt (DataInfo u) 8 = MaskVariant u := by
  refine ⟨by simp [DataInfo, h16], ?_, ?_, ?_⟩
  · intro i h6 h8
    simp only [DataInfo, byteAt, List.getD_eq_getElem?_getD]
    rw [List.getElem?_set_ne (by omega), List.getElem?_set_ne (by omega)]
  · simp only [DataInfo, byteAt, List.getD_eq_getElem?_getD]
    rw [List.getElem?_set_ne (by omega), List.getElem?_set_self (by omega)]
    rfl
  · simp only [DataInfo, byteAt, List.getD_eq_getElem?_getD]
    rw [List.getElem?_set_self (by simp [h16])]
    rfl

/-- Witness for C9 at a concrete version-4 buffer. -/
theorem C9_datainfo_copy_witness :
    byteAt (DataInfo [0x8b, 0xe4, 0xdf, 0x61, 0x93, 0xca, 0x41, 0xd2,
        0xaa, 0x0d, 0x00, 0xe0, 0x98, 0x03, 0x2b, 0x8c]) 6
      = byteAt [0x8b, 0xe4, 0xdf, 0x61, 0x93, 0xca, 0x41, 0xd2,
        0xaa, 0x0d, 0x00, 0xe0, 0x98, 0x03, 0x2b, 0x8c] 6 &&& 0x0f
    ∧ byteAt (DataInfo [0x8b, 0xe4, 0xdf, 0x61, 0x93, 0xca, 0x41, 0xd2,
        0xaa, 0x0d, 0x00, 0xe0, 0x98, 0x03, 0x2b, 0x8c]) 8
      = MaskVariant [0x8b, 0xe4, 0xdf, 0x61, 0x93, 0xca, 0x41, 0xd2,
        0xaa, 0x0d, 0x00, 0xe0, 0x98, 0x03, 0x2b, 0x8c] :=
  ⟨(C9_datainfo_copy [0x8b, 0xe4, 0xdf, 0x61, 0x93, 0xca, 0x41, 0xd2,
        0xaa, 0x0d, 0x00, 0xe0, 0x98, 0x03, 0x2b, 0x8c] (by decide)).2.2.1,
   (C9_datainfo_copy [0x8b, 0xe4, 0xdf, 0x61, 0x93, 0xca, 0x41, 0xd2,
        0xaa, 0x0d, 0x00, 0xe0, 0x98, 0x03, 0x2b, 0x8c] (by decide)).2.2.2⟩

/-! ### Claim C1: version-1 timestamp reconstruction is exact -/

/-- C1: for every version-1 buffer (any endianness flag), the 60-bit tick
count `timeLow + timeMid<<32 + timeHigh<<48` is below `2^60`, the chunked
addition is exact — the resulting time is the 1582-10-15 epoch plus
`ticks * 100` nanoseconds, with the per-step duration
`MaxDurationUnit * UUITTimeUnit` fitting the `int64` nanosecond type — and
all-zero time fields give exactly the base epoch. -/
theorem C1_timeinfo_exact (u : List Nat) (le : Bool)
    (hb : ∀ b ∈ u, b < 256) (hv : Version u = 1) :
    (TimeInfo u le).timeNs = UUIDTimeBaseNs + (timeUnits u le : Int) * (UUITTimeUnit : Int)
    ∧ timeUnits u le = timeLow u le + timeMid u le * 2 ^ 32 + timeHigh u le * 2 ^ 48
    ∧ timeUnits u le < 2 ^ 60
    ∧ MaxDurationUnit * UUITTimeUnit ≤ 2 ^ 63 - 1
    ∧ (timeUnits u le = 0 → (TimeInfo u le).timeNs = UUIDTimeBaseNs) := by
  refine ⟨?_, ?_, timeUnits_lt u hb le, by decide, ?_⟩
  · show chunkAdd (timeUnits u le) UUIDTimeBaseNs = _
    exact chunkAdd_eq _ _
  · simp only [timeUnits, hv, if_pos, Nat.shiftLeft_eq]
  · intro h0
    show chunkAdd (timeUnits u le) UUIDTimeBaseNs = _
    rw [h0, chunkAdd_eq]
    simp

/-- Witness for C1 at the version-1 example UUID
8be4df61-93ca-11d2-aa0d-00e098032b8c (big-endian decode). -/
theorem C1_timeinfo_exact_witness :
    Version [0x8b, 0xe4, 0xdf, 0x61, 0x93, 0xca, 0x11, 0xd2,
        0xaa, 0x0d, 0x00, 0xe0, 0x98, 0x03, 0x2b, 0x8c] = 1
    ∧ (TimeInfo [0x8b, 0xe4, 0xdf, 0x61, 0x93, 0xca, 0x11, 0xd2,
        0xaa, 0x0d, 0x00, 0xe0, 0x98, 0x03, 0x2b, 0x8c] false).timeNs
      = UUIDTimeBaseNs
        + (timeUnits [0x8b, 0xe4, 0xdf, 0x61, 0x93, 0xca, 0x11, 0xd2,
            0xaa, 0x0d, 0x00, 0xe0, 0x98, 0x03, 0x2b, 0x8c] false : Int)
          * (UUITTimeUnit : Int) :=
  ⟨by decide,
   (C1_timeinfo_exact [0x8b, 0xe4, 0xdf, 0x61, 0x93, 0xca, 0x11, 0xd2,
        0xaa, 0x0d, 0x00, 0xe0, 0x98, 0x03, 0x2b, 0x8c] false
      (by decide) (by decide)).1⟩

/-! ### Claim C6: version-specific field decoding -/

/-- C6: for a version-2 buffer, the tick count excludes time-low
(`ticks = timeMid<<32 + timeHigh<<48`), `localID` is the decoded 32-bit
time-low field, `domain` is byte 9, and the clock sequence is the single
masked byte 8; for a version-1 buffer the clock sequence is the masked
byte 8 shifted left 8 bits plus byte 9, and domain and localID are 0. -/
theorem C6_version_fields (u : List Nat) (le : Bool) :
    (Version u = 2 →
       (TimeInfo u le).timeNs
         = UUIDTimeBaseNs
           + ((timeMid u le * 2 ^ 32 + timeHigh u le * 2 ^ 48 : Nat) : Int)
             * (UUITTimeUnit : Int)
       ∧ (TimeInfo u le).localID = (timeLow u le : Int)
       ∧ (TimeInfo u le).domain = (byteAt u 9 : Int)
       ∧ (TimeInfo u le).clkSeq = (MaskVariant u : Int))
    ∧ (Version u = 1 →
       (TimeInfo u le).clkSeq = (MaskVariant u : Int) * 2 ^ 8 + (byteAt u 9 : Int)
       ∧ (TimeInfo u le).domain = 0
       ∧ (TimeInfo u le).localID = 0) := by
  constructor
  · intro hv
    have ht : timeUnits u le = timeMid u le * 2 ^ 32 + timeHigh u le * 2 ^ 48 := by
      simp only [timeUnits, hv]
      norm_num [Nat.shiftLeft_eq]
    refine ⟨?_, ?_, ?_, ?_⟩
    · show chunkAdd (timeUnits u le) UUIDTimeBaseNs = _
      rw [chunkAdd_eq, ht]
    · show (if Version u = 2 then (timeLow u le : Int) else 0) = _
      rw [hv]; norm_num
    · show (if Version u = 2 then (byteAt u 9 : Int) else 0) = _
      rw [hv]; norm_num
    · show (if Version u = 1 then (MaskVariant u : Int) * 2 ^ 8 + (byteAt u 9 : Int)
          else (MaskVariant u : Int)) = _
      rw [hv]; norm_num
  · intro hv
    refine ⟨?_, ?_, ?_⟩
    · show (if Version u = 1 then (MaskVariant u : Int) * 2 ^ 8 + (byteAt u 9 : Int)
          else (MaskVariant u : Int)) = _
      rw [hv]; norm_num
    · show (if Version u = 2 then (byteAt u 9 : Int) else 0) = _
      rw [hv]; norm_num
    · show (if Version u = 2 then (timeLow u le : Int) else 0) = _
      rw [hv]; norm_num

/-- Witness for C6: the version-2 example UUID
8be4df61-93ca-21d2-aa0d-00e098032b8c and its version-1 counterpart
8be4df61-93ca-11d2-aa0d-00e098032b8d, decoded big-endian. -/
theorem C6_version_fields_witness :
    ((TimeInfo [0x8b, 0xe4, 0xdf, 0x61, 0x93, 0xca, 0x21, 0xd2,
        0xaa, 0x0d, 0x00, 0xe0, 0x98, 0x03, 0x2b, 0x8c] false).localID
      = (timeLow [0x8b, 0xe4, 0xdf, 0x61, 0x93, 0xca, 0x21, 0xd2,
          0xaa, 0x0d, 0x00, 0xe0, 0x98, 0x03, 0x2b, 0x8c] false : Int)
      ∧ (TimeInfo [0x8b, 0xe4, 0xdf, 0x61, 0x93, 0xca, 0x21, 0xd2,
          0xaa, 0x0d, 0x00, 0xe0, 0x98, 0x03, 0x2b, 0x8c] false).domain
        = (byteAt [0x8b, 0xe4, 0xdf, 0x61, 0x93, 0xca, 0x21, 0xd2,
            0xaa, 0x0d, 0x00, 0xe0, 0x98, 0x03, 0x2b, 0x8c] 9 : Int))
    ∧ (TimeInfo [0x8b, 0xe4, 0xdf, 0x61, 0x93, 0xca, 0x11, 0xd2,
        0xaa, 0x0d, 0x00, 0xe0, 0x98, 0x03, 0x2b, 0x8d] false).clkSeq
      = (MaskVariant [0x8b, 0xe4, 0xdf, 0x61, 0x93, 0xca, 0x11, 0xd2,
          0xaa, 0x0d, 0x00, 0xe0, 0x98, 0x03, 0x2b, 0x8d] : Int) * 2 ^ 8
        + (byteAt [0x8b, 0xe4, 0xdf, 0x61, 0x93, 0xca, 0x11, 0xd2,
            0xaa, 0x0d, 0x00, 0xe0, 0x98, 0x03, 0x2b, 0x8d] 9 : Int) :=
  ⟨⟨((C6_version_fields [0x8b, 0xe4, 0xdf, 0x61, 0x93, 0xca, 0x21, 0xd2,
        0xaa, 0x0d, 0x00, 0xe0, 0x98, 0x03, 0x2b, 0x8c] false).1 (by decide)).2.1,
    ((C6_version_fields [0x8b, 0xe4, 0xdf, 0x61, 0x93, 0xca, 0x21, 0xd2,
        0xaa, 0x0d, 0x00, 0xe0, 0x98, 0x03, 0x2b, 0x8c] false).1 (by decide)).2.2.1⟩,
   ((C6_version_fields [0x8b, 0xe4, 0xdf, 0x61, 0x93, 0xca, 0x11, 0xd2,
        0xaa, 0x0d, 0x00, 0xe0, 0x98, 0x03, 0x2b, 0x8d] false).2 (by decide)).1⟩

/-! ### Claim C5: time-high endianness (corrected) -/

/-- C5 counterexample: with byte 6 = 0x10 (version 1, low nibble 0) and
byte 7 = 0x01, the little-endian decode yields `timeHigh = 16` — byte 7
lands at place value `2^4` — whereas the claim's layout (byte 7 at place
value `2^8`) would give 256; the resulting timestamp shows the decoded
value 16 reaching the tick count. -/
theorem C5_le_timehigh_counterexample :
    timeHigh [0, 0, 0, 0, 0, 0, 0x10, 0x01, 0, 0, 0, 0, 0, 0, 0, 0] true = 16
    ∧ (byteAt [0, 0, 0, 0, 0, 0, 0x10, 0x01, 0, 0, 0, 0, 0, 0, 0, 0] 6 &&& 0x0f)
        + byteAt [0, 0, 0, 0, 0, 0, 0x10, 0x01, 0, 0, 0, 0, 0, 0, 0, 0] 7 * 2 ^ 8 = 256
    ∧ (16 : Nat) ≠ 256
    ∧ (TimeInfo [0, 0, 0, 0, 0, 0, 0x10, 0x01, 0, 0, 0, 0, 0, 0, 0, 0] true).timeNs
      = UUIDTimeBaseNs + (16 * 2 ^ 48 : Int) * (UUITTimeUnit : Int) := by
  refine ⟨by decide, by decide, by decide, ?_⟩
  show chunkAdd (timeUnits [0, 0, 0, 0, 0, 0, 0x10, 0x01, 0, 0, 0, 0, 0, 0, 0, 0] true)
      UUIDTimeBaseNs = _
  rw [chunkAdd_eq]
  have ht : timeUnits [0, 0, 0, 0, 0, 0, 0x10, 0x01, 0, 0, 0, 0, 0, 0, 0, 0] true
      = 16 * 2 ^ 48 := by decide
  rw [ht]
  norm_num

/-- C5 amended: `TimeInfo` reads time-low and time-mid with the stated
endianness conventions, and reads time-high from bytes [6,8) with the
version nibble of byte 6 masked out; but in the little-endian branch
byte 7 contributes at place value `2^4` (the masked low nibble of byte 6
occupies the low 4 bits), not `2^8`.  Big-endian accumulates
most-significant-first as claimed. -/
theorem C5_amended_field_layout (u : List Nat) :
    timeLow u true
        = byteAt u 0 + byteAt u 1 * 2 ^ 8 + byteAt u 2 * 2 ^ 16 + byteAt u 3 * 2 ^ 24
    ∧ timeLow u false
        = byteAt u 0 * 2 ^ 24 + byteAt u 1 * 2 ^ 16 + byteAt u 2 * 2 ^ 8 + byteAt u 3
    ∧ timeMid u true = byteAt u 4 + byteAt u 5 * 2 ^ 8
    ∧ timeMid u false = byteAt u 4 * 2 ^ 8 + byteAt u 5
    ∧ timeHigh u true = byteAt u 6 % 16 + byteAt u 7 * 2 ^ 4
    ∧ timeHigh u false = (byteAt u 6 % 16) * 2 ^ 8 + byteAt u 7 := by
  refine ⟨timeLow_le_eq u, timeLow_be_eq u, ?_, ?_, ?_, ?_⟩
  · simp only [timeMid, Nat.shiftLeft_eq, ite_true]
  · simp only [timeMid, Nat.shiftLeft_eq, Bool.false_eq_true, ite_false]
  · simp only [timeHigh, Nat.shiftLeft_eq, and_fifteen, ite_true]
  · simp only [timeHigh, Nat.shiftLeft_eq, and_fifteen, Bool.false_eq_true, ite_false]

/-! ### Claim C8: totality of parsing (code bug) -/

/-- C8 (claim refuted — code bug): `FromString` is claimed to terminate
normally on every input with 16 bytes or a parse error, but the source
indexes `s[0]` on the dash-stripped string without a length check, so the
empty string and all-dash strings hit a runtime index-out-of-range fault
(modelled as `ParseOutcome.outOfRange`), with the receiver left
untouched. -/
theorem C8_empty_input_fault :
    FromString [1, 2, 3] [] = ([1, 2, 3], ParseOutcome.outOfRange)
    ∧ FromString [1, 2, 3] ['-', '-', '-'] = ([1, 2, 3], ParseOutcome.outOfRange) := by
  decide

/-! ### Helper lemmas for the string round trip -/

/-- Hex-encoding doubles the length. -/
theorem length_hexEncodeList (bs : List Nat) :
    (hexEncodeList bs).length = 2 * bs.length := by
  induction bs with
  | nil => rfl
  | cons b t ih =>
    simp only [hexEncodeList, List.flatMap_cons, List.length_append, List.length_cons] at *
    simp [encByte, ih]
    omega

set_option maxRecDepth 4000 in
/-- Facts about an uppercased hex digit: it decodes back to its nibble
value, and it is not a dash, a left brace, or the letter `u`. -/
theorem upperHex_facts : ∀ x, x < 16 →
    fromHexChar (Char.toUpper (hexLower x)) = some x
    ∧ Char.toUpper (hexLower x) ≠ '-'
    ∧ Char.toUpper (hexLower x) ≠ Char.ofNat 123
    ∧ Char.toUpper (hexLower x) ≠ 'u' := by decide

/-- The high nibble of a byte is below 16. -/
theorem shiftRight4_lt (b : Nat) (hb : b < 256) : b >>> 4 < 16 := by
  rw [Nat.shiftRight_eq_div_pow]
  omega

/-- The low nibble of any value is below 16. -/
theorem and15_lt (b : Nat) : b &&& 0x0f < 16 := by
  rw [and_fifteen]
  omega

set_option maxRecDepth 4000 in
/-- Decoding one uppercased encoded byte at the front of a digit stream
yields that byte and continues with the rest. -/
theorem hexDecodeGo_encUp (b : Nat) (hb : b < 256) (rest : List Char) :
    hexDecodeGo (Char.toUpper (hexLower (b >>> 4))
        :: Char.toUpper (hexLower (b &&& 0x0f)) :: rest)
      = (b :: (hexDecodeGo rest).1, (hexDecodeGo rest).2) := by
  have e1 := (upperHex_facts _ (shiftRight4_lt b hb)).1
  have e2 := (upperHex_facts _ (and15_lt b)).1
  have hnib : (b >>> 4) <<< 4 ||| (b &&& 0x0f) = b := by
    have H : ∀ b, b < 256 → (b >>> 4) <<< 4 ||| (b &&& 0x0f) = b := by decide
    exact H b hb
  simp only [hexDecodeGo, e1, e2, hnib]

/-- Decoding the uppercased hex encoding of a byte list restores the
bytes with no error. -/
theorem hexDecodeGo_hexEncodeList (bs : List Nat) (hb : ∀ b ∈ bs, b < 256) :
    hexDecodeGo ((hexEncodeList bs).map Char.toUpper) = (bs, none) := by
  induction bs with
  | nil => rfl
  | cons b t ih =>
    have hbb : b < 256 := hb b (by simp)
    have ht : ∀ x ∈ t, x < 256 := fun x hx => hb x (by simp [hx])
    have step := hexDecodeGo_encUp b hbb ((hexEncodeList t).map Char.toUpper)
    calc hexDecodeGo ((hexEncodeList (b :: t)).map Char.toUpper)
        = hexDecodeGo (Char.toUpper (hexLower (b >>> 4))
            :: Char.toUpper (hexLower (b &&& 0x0f))
            :: (hexEncodeList t).map Char.toUpper) := by
          simp [hexEncodeList, List.flatMap_cons, encByte]
      _ = (b :: (hexDecodeGo ((hexEncodeList t).map Char.toUpper)).1,
            (hexDecodeGo ((hexEncodeList t).map Char.toUpper)).2) := step
      _ = (b :: t, none) := by rw [ih ht]

/-- Uppercased hex digits survive dash-filtering untouched. -/
theorem filter_hexUp (bs : List Nat) (hb : ∀ b ∈ bs, b < 256) :
    ((hexEncodeList bs).map Char.toUpper).filter (fun c => c != '-')
      = (hexEncodeList bs).map Char.toUpper := by
  rw [List.filter_eq_self]
  intro a ha
  simp only [List.mem_map] at ha
  obtain ⟨c, hc, rfl⟩ := ha
  simp only [hexEncodeList, List.mem_flatMap, encByte, List.mem_cons,
    List.not_mem_nil, or_false] at hc
  obtain ⟨x, hx, hcx⟩ := hc
  have hx256 := hb x hx
  rcases hcx with rfl | rfl
  · simpa using (upperHex_facts _ (shiftRight4_lt x hx256)).2.1
  · simpa using (upperHex_facts _ (and15_lt x)).2.1

/-- The five render slices concatenate back to the whole 16-byte
buffer. -/
theorem uuid_slices_recompose (u : List Nat) (h16 : u.length = 16) :
    u.take 4 ++ ((u.drop 4).take 2 ++ ((u.drop 6).take 2
      ++ ((u.drop 8).take 2 ++ (u.drop 10).take 6))) = u := by
  have h10 : (u.drop 10).take 6 = u.drop 10 :=
    List.take_of_length_le (by simp [h16])
  have e8 : (u.drop 8).take 2 ++ u.drop 10 = u.drop 8 := by
    have h := List.take_append_drop 2 (u.drop 8)
    rw [List.drop_drop] at h
    norm_num at h
    exact h
  have e6 : (u.drop 6).take 2 ++ u.drop 8 = u.drop 6 := by
    have h := List.take_append_drop 2 (u.drop 6)
    rw [List.drop_drop] at h
    norm_num at h
    exact h
  have e4 : (u.drop 4).take 2 ++ u.drop 6 = u.drop 4 := by
    have h := List.take_append_drop 2 (u.drop 4)
    rw [List.drop_drop] at h
    norm_num at h
    exact h
  rw [h10, e8, e6, e4, List.take_append_drop]

/-- Stripping dashes from the canonical rendering leaves exactly the 32
uppercased hex digits of the raw buffer. -/
theorem filter_uuidString (u : List Nat) (h16 : u.length = 16)
    (hb : ∀ b ∈ u, b < 256) :
    (uuidString u).filter (fun c => c != '-') = (hexEncodeList u).map Char.toUpper := by
  have hbT : ∀ b ∈ u.take 4, b < 256 := fun b h => hb b (List.mem_of_mem_take h)
  have hb4 : ∀ b ∈ (u.drop 4).take 2, b < 256 :=
    fun b h => hb b (List.mem_of_mem_drop (List.mem_of_mem_take h))
  have hb6 : ∀ b ∈ (u.drop 6).take 2, b < 256 :=
    fun b h => hb b (List.mem_of_mem_drop (List.mem_of_mem_take h))
  have hb8 : ∀ b ∈ (u.drop 8).take 2, b < 256 :=
    fun b h => hb b (List.mem_of_mem_drop (List.mem_of_mem_take h))
  have hb10 : ∀ b ∈ (u.drop 10).take 6, b < 256 :=
    fun b h => hb b (List.mem_of_mem_drop (List.mem_of_mem_take h))
  have hdash : Char.toUpper '-' = '-' := by decide
  unfold uuidString
  simp only [List.map_append, List.map_cons, hdash, List.filter_append, List.filter_cons]
  norm_num
  rw [filter_hexUp _ hbT, filter_hexUp _ hb4, filter_hexUp _ hb6,
    filter_hexUp _ hb8, filter_hexUp _ hb10]
  rw [← List.map_append, ← List.map_append, ← List.map_append, ← List.map_append]
  rw [hexEncodeList, hexEncodeList, hexEncodeList, hexEncodeList, hexEncodeList,
    hexEncodeList]
  rw [← List.flatMap_append, ← List.flatMap_append, ← List.flatMap_append,
    ← List.flatMap_append]
  rw [uuid_slices_recompose u h16]

/-- Canonicalizing the rendered string: no dash survives, the first
character is an uppercase hex digit (neither a brace nor `u`), so neither
the brace form nor the URN prefix applies and the 32 hex digits pass
through unchanged. -/
theorem canonicalize_uuidString (u : List Nat) (h16 : u.length = 16)
    (hb : ∀ b ∈ u, b < 256) :
    canonicalize (uuidString u) = some ((hexEncodeList u).map Char.toUpper) := by
  cases u with
  | nil => simp at h16
  | cons b t =>
    have hbb : b < 256 := hb b (by simp)
    have h123 := (upperHex_facts _ (shiftRight4_lt b hbb)).2.2.1
    have hu := (upperHex_facts _ (shiftRight4_lt b hbb)).2.2.2
    have hbeq : ('u' == Char.toUpper (hexLower (b >>> 4))) = false := by
      rw [beq_eq_false_iff_ne]
      exact fun h => hu h.symm
    simp only [canonicalize]
    rw [filter_uuidString _ h16 hb]
    simp only [hexEncodeList, List.flatMap_cons, encByte, List.cons_append,
      List.map_cons, List.map_append]
    simp [h123, hasPrefixList, urnHeader, hbeq]

/-! ### Claim C2: render/parse round trip -/

/-- C2: for every 16-byte buffer, parsing the canonical rendering
(uppercase dashed hex, as produced by `String()`) succeeds and restores
exactly the original bytes, whatever the receiver's previous value. -/
theorem C2_parse_render_roundtrip (u old : List Nat) (h16 : u.length = 16)
    (hb : ∀ b ∈ u, b < 256) :
    FromString old (uuidString u) = (u, ParseOutcome.ok) := by
  have hcan := canonicalize_uuidString u h16 hb
  have hdec := hexDecodeGo_hexEncodeList u hb
  have hlen : ((hexEncodeList u).map Char.toUpper).length = 32 := by
    rw [List.length_map, length_hexEncodeList, h16]
  simp only [FromString, hcan]
  simp only [decodePart, hdec, hlen, h16]
  norm_num

/-- Witness for C2 at the bytes of cab00d1e-cab0-10d1-beca-00decab00d1e. -/
theorem C2_parse_render_roundtrip_witness :
    FromString [] (uuidString [0xca, 0xb0, 0x0d, 0x1e, 0xca, 0xb0, 0x10, 0xd1,
        0xbe, 0xca, 0x00, 0xde, 0xca, 0xb0, 0x0d, 0x1e])
      = ([0xca, 0xb0, 0x0d, 0x1e, 0xca, 0xb0, 0x10, 0xd1,
          0xbe, 0xca, 0x00, 0xde, 0xca, 0xb0, 0x0d, 0x1e], ParseOutcome.ok) :=
  C2_parse_render_roundtrip [0xca, 0xb0, 0x0d, 0x1e, 0xca, 0xb0, 0x10, 0xd1,
      0xbe, 0xca, 0x00, 0xde, 0xca, 0xb0, 0x0d, 0x1e] [] (by decide) (by decide)

/-! ### Claim C7: brace handling (corrected) -/

/-- C7 counterexample: an input that opens with a left brace and has no
closing right brace is *accepted* — `TrimSuffix` strips the brace only
when present and reports nothing otherwise, so `\x7b` followed by 32
zeros parses to 16 zero bytes with outcome ok, not a parse error. -/
theorem C7_missing_brace_counterexample :
    FromString [] (Char.ofNat 123 :: List.replicate 32 '0')
      = (List.replicate 16 0, ParseOutcome.ok) := by decide

/-- C7 amended: when the dash-stripped input begins with a left brace,
`FromString` strips that brace, strips one trailing right brace only if
present, and hex-decodes the remainder; a missing closing brace is not
rejected — the input is accepted exactly when that remainder decodes
without error to 16 bytes. -/
theorem C7_amended_brace_handling (old : List Nat) (src rest : List Char)
    (h : src.filter (fun c => c != '-') = Char.ofNat 123 :: rest) :
    FromString old src = decodePart (trimBraceSuffix rest)
    ∧ ((FromString old src).2 = ParseOutcome.ok ↔
        (hexDecodeGo (trimBraceSuffix rest)).2 = none
        ∧ (hexDecodeGo (trimBraceSuffix rest)).1.length = 16) := by
  have hc : canonicalize src = some (trimBraceSuffix rest) := by
    simp only [canonicalize, h]
    simp
  have h1 : FromString old src = decodePart (trimBraceSuffix rest) := by
    simp only [FromString, hc]
  refine ⟨h1, ?_⟩
  rw [h1]
  unfold decodePart
  cases he : (hexDecodeGo (trimBraceSuffix rest)).2 with
  | some e => simp [he]
  | none =>
    by_cases hn : (hexDecodeGo (trimBraceSuffix rest)).1.length = 16
    · simp [he, hn]
    · simp [he, hn]

/-- Witness for C7 amended: the well-formed braces input
`\x7b` + 32 zeros + `\x7d` is processed as the 32 zeros. -/
theorem C7_amended_brace_handling_witness :
    FromString [] (Char.ofNat 123 :: (List.replicate 32 '0' ++ [Char.ofNat 125]))
      = decodePart (trimBraceSuffix (List.replicate 32 '0' ++ [Char.ofNat 125]))
    ∧ ((FromString [] (Char.ofNat 123 :: (List.replicate 32 '0' ++ [Char.ofNat 125]))).2
          = ParseOutcome.ok ↔
        (hexDecodeGo (trimBraceSuffix (List.replicate 32 '0' ++ [Char.ofNat 125]))).2 = none
        ∧ (hexDecodeGo (trimBraceSuffix
            (List.replicate 32 '0' ++ [Char.ofNat 125]))).1.length = 16) :=
  C7_amended_brace_handling [] _ _ (by decide)

/-! ### Claim C10: a length error overwrites the receiver -/

/-- An error-free decode consumes the whole string: it produces exactly
one byte per digit pair. -/
theorem hexDecodeGo_ok_length : ∀ s : List Char, (hexDecodeGo s).2 = none →
    2 * (hexDecodeGo s).1.length = s.length
  | [] => fun _ => rfl
  | [c] => fun h => by simp [hexDecodeGo] at h
  | c1 :: c2 :: rest => fun h => by
    cases h1 : fromHexChar c1 with
    | none => simp [hexDecodeGo, h1] at h
    | some a =>
      cases h2 : fromHexChar c2 with
      | none => simp [hexDecodeGo, h1, h2] at h
      | some b =>
        simp only [hexDecodeGo, h1, h2] at h ⊢
        have := hexDecodeGo_ok_length rest h
        simp only [List.length_cons]
        omega

/-- C10: when the canonicalized hex payload decodes cleanly to a byte
count other than 16, `FromString` reports the length error only after
overwriting the receiver with the wrongly-sized decoded buffer, so the
previous receiver value (in particular any previously parsed 16-byte
value) is not preserved — the parse is not atomic on failure. -/
theorem C10_lengtherr_not_atomic (old : List Nat) (src s2 : List Char)
    (hc : canonicalize src = some s2)
    (he : (hexDecodeGo s2).2 = none)
    (hn : (hexDecodeGo s2).1.length ≠ 16) :
    FromString old src
      = ((hexDecodeGo s2).1, ParseOutcome.lengthErr (hexDecodeGo s2).1.length)
    ∧ (old.length = 16 → (FromString old src).1 ≠ old) := by
  have hlen := hexDecodeGo_ok_length s2 he
  have hpad : s2.length / 2 - (hexDecodeGo s2).1.length = 0 := by omega
  have h1 : FromString old src
      = ((hexDecodeGo s2).1, ParseOutcome.lengthErr (hexDecodeGo s2).1.length) := by
    simp only [FromString, hc, decodePart, he, hpad]
    simp [hn]
  refine ⟨h1, fun h16 heq => ?_⟩
  apply hn
  have hold : (hexDecodeGo s2).1 = old := by
    rw [← heq, h1]
  rw [hold, h16]

/-- Witness for C10: 30 zeros decode to 15 zero bytes, so a receiver
holding 16 bytes is overwritten by the 15-byte buffer and the length
error reports 15. -/
theorem C10_lengtherr_not_atomic_witness :
    FromString (List.replicate 16 7) (List.replicate 30 '0')
      = ((hexDecodeGo (List.replicate 30 '0')).1,
         ParseOutcome.lengthErr (hexDecodeGo (List.replicate 30 '0')).1.length)
    ∧ ((List.replicate 16 (7 : Nat)).length = 16 →
        (FromString (List.replicate 16 7) (List.replicate 30 '0')).1
          ≠ List.replicate 16 7) :=
  C10_lengtherr_not_atomic (List.replicate 16 7) (List.replicate 30 '0')
    (List.replicate 30 '0') (by decide) (by decide) (by decide)
